import Mathlib

/-!
Verification of the `target-bigquery` ingestion engine against its design
specification.  The Python modules `schema.py`, `job.py` and `stream.py`
are shallowly embedded below: JSON values and JSON-Schema-like type nodes
become inductive types, Python dictionaries become insertion-ordered
association lists, exceptions become `Except`, and the recursion in
`filter_schema` / `define_schema` / `build_schema` is made total with an
explicit fuel parameter (running out of fuel is a distinguished error that
faithful theorems treat like any other failure).  External collaborators
(the BigQuery client, the JSON-Schema validator) are modelled as oracle
functions supplied through the configuration records.
-/

set_option maxHeartbeats 1000000

namespace TargetBigquery

/-- Errors raised inside `schema.py`: Python `ValueError`, `KeyError`,
`TypeError`, plus exhaustion of the recursion fuel. -/
inductive FErr where
  | valueError
  | keyError
  | typeError
  | fuelOut
deriving DecidableEq, Repr

/-- The value of a `type` entry in a JSON-Schema node: either a single
type name or a list of type names (as in `{"type": ["null", "string"]}`). -/
inductive JType where
  | str (s : String)
  | list (l : List String)
deriving DecidableEq, Repr

/-- Python truthiness of a `type` entry: the empty string and the empty
list are falsy. -/
def jtFalsy : JType → Bool
  | .str s => s == ""
  | .list l => l.isEmpty

/-- JSON values, the payload of RECORD messages. -/
inductive JValue where
  | null
  | b (x : Bool)
  | n (x : Int)
  | s (x : String)
  | arr (xs : List JValue)
  | obj (kvs : List (String × JValue))

/-- Python truthiness test used by `filter_schema` (`if not record`):
`None`, `False`, `0`, `''`, `[]` and `{}` are falsy. -/
def jFalsy : JValue → Bool
  | .null => true
  | .b x => !x
  | .n x => x == 0
  | .s x => x == ""
  | .arr xs => xs.isEmpty
  | .obj kvs => kvs.isEmpty

/-- A JSON-Schema node as the Python code reads it: an (optional) `anyOf`
list, an (optional) `type` entry, (optional) `properties`, `items`,
`required` and `format` entries.  An absent entry is `none`. -/
inductive JSchema where
  | mk (anyOf : Option (List JSchema)) (type : Option JType)
       (properties : Option (List (String × JSchema)))
       (items : Option JSchema) (required : Option (List String))
       (format : Option String)

def JSchema.anyOf : JSchema → Option (List JSchema)
  | .mk a _ _ _ _ _ => a

def JSchema.type : JSchema → Option JType
  | .mk _ t _ _ _ _ => t

def JSchema.properties : JSchema → Option (List (String × JSchema))
  | .mk _ _ p _ _ _ => p

def JSchema.items : JSchema → Option JSchema
  | .mk _ _ _ i _ _ => i

def JSchema.required : JSchema → Option (List String)
  | .mk _ _ _ _ r _ => r

def JSchema.format : JSchema → Option String
  | .mk _ _ _ _ _ f => f

/-- The schema node written `{}` in Python: every entry absent. -/
def emptyJSchema : JSchema := .mk none none none none none none

/-- Python truthiness of a schema node (`if not props`): a node is falsy
exactly when it is the empty dictionary, i.e. every entry is absent. -/
def schemaFalsy : JSchema → Bool
  | .mk none none none none none none => true
  | _ => false

/-- Python `str.lower()` restricted to the character-by-character case
mapping (sufficient for ASCII type names), written over `data` so that it
reduces in the kernel. -/
def strLower (s : String) : String := ⟨s.data.map Char.toLower⟩

/-- `schema.py` `get_type`: returns the node's kind (`'anyOf'` when an
`anyOf` entry is present, otherwise the scalar `type`, otherwise the last
non-null member of a `type` list, which may leave the kind absent) and
the nullability flag gathered from `'null'` members of a `type` list.
A node with neither `anyOf` nor a truthy `type` raises `ValueError`. -/
def get_type (prop : JSchema) : Except FErr (Option String × Bool) :=
  match prop.anyOf with
  | some _ => .ok (some "anyOf", false)
  | none =>
    match prop.type with
    | none => .error .valueError
    | some t =>
      if jtFalsy t then .error .valueError
      else
        match t with
        | .str ty => .ok (some ty, false)
        | .list tys =>
          .ok (tys.foldl
            (fun acc ty =>
              if strLower ty == "null" then (acc.1, true) else (some ty, acc.2))
            (none, false))

/-- The tuple `JSON_SCHEMA_LITERALS` from `schema.py`. -/
def isLiteral : Option String → Bool
  | some t => t == "boolean" || t == "number" || t == "integer" || t == "string"
  | none => false

/-- `needle` starts `hay` (list-of-characters form). -/
def listStarts : List Char → List Char → Bool
  | [], _ => true
  | _ :: _, [] => false
  | a :: as, c :: cs => a == c && listStarts as cs

/-- Substring test, the meaning of Python `key in record` when `record`
is a string. -/
def listSubstr : List Char → List Char → Bool
  | needle, [] => needle.isEmpty
  | needle, c :: rest => listStarts needle (c :: rest) || listSubstr needle rest

/-- Python `key in record` for the record shapes `filter_schema` can
meet: dictionary key lookup, substring test on strings, element test on
lists; `in` on a bool or a number raises `TypeError`. -/
def jMem (record : JValue) (key : String) : Except FErr Bool :=
  match record with
  | .obj kvs => .ok (kvs.any (fun e => e.1 == key))
  | .s str => .ok (listSubstr key.data str.data)
  | .arr xs =>
    .ok (xs.any (fun v => match v with | .s t => t == key | _ => false))
  | _ => .error .typeError

/-- Python `record[key]`: dictionary indexing; indexing a string or a
list with a string key raises `TypeError`. -/
def jGet (record : JValue) (key : String) : Except FErr JValue :=
  match record with
  | .obj kvs =>
    match kvs.find? (fun e => e.1 == key) with
    | some e => .ok e.2
    | none => .error .keyError
  | _ => .error .typeError

/-- Python `for x in record`: iteration over the record shapes
`filter_schema`'s array branch can meet — list elements, dictionary keys,
the characters of a string; iterating a bool or a number raises
`TypeError`. -/
def jIter : JValue → Except FErr (List JValue)
  | .arr xs => .ok xs
  | .obj kvs => .ok (kvs.map (fun e => .s e.1))
  | .s str => .ok (str.data.map (fun c => .s (String.mk [c])))
  | _ => .error .typeError

/-- The `anyOf` loop of `filter_schema`: skip alternatives whose kind is
the string `'null'`, return the first other alternative; an exhausted
loop makes the Python function return `None`. -/
def anyOf_select_filter : List JSchema → Except FErr (Option JSchema)
  | [] => .ok none
  | p :: rest => do
    let pt ← get_type p
    if pt.1 = some "null" then anyOf_select_filter rest else .ok (some p)

/-- The body of the `for key, prop_schema in props.items()` loop of
`filter_schema`'s object branch, with `g` standing for the recursive
call at the next-smaller fuel. -/
def filterObjAux (g : JSchema → JValue → Except FErr JValue) :
    List (String × JSchema) → JValue → Except FErr (List (String × JValue))
  | [], _ => .ok []
  | e :: rest, record => do
    let m ← jMem record e.1
    if m then do
      let rv ← jGet record e.1
      let fv ← g e.2 rv
      let tail ← filterObjAux g rest record
      .ok ((e.1, fv) :: tail)
    else filterObjAux g rest record

/-- The body of the `for schema_object in record` loop of
`filter_schema`'s array branch. -/
def filterArrAux (g : JSchema → JValue → Except FErr JValue) (ps : JSchema) :
    List JValue → Except FErr (List JValue)
  | [] => .ok []
  | v :: rest => do
    let fv ← g ps v
    let tail ← filterArrAux g ps rest
    .ok (fv :: tail)

/-- `schema.py` `filter_schema`: project a record value onto a schema
node.  A falsy record is returned unchanged before anything else is
looked at; literal kinds pass the record through; `anyOf` recurses into
the alternative chosen by `anyOf_select_filter`; objects keep exactly the
declared keys that are present in the record, recursively projected;
arrays of non-objects pass through, arrays of objects are projected
elementwise; any other kind raises `ValueError`. -/
def filter_schema : Nat → JSchema → JValue → Except FErr JValue
  | 0, _, record => if jFalsy record then .ok record else .error .fuelOut
  | fuel + 1, schema, record =>
    if jFalsy record then .ok record
    else do
      let ft ← get_type schema
      if isLiteral ft.1 then .ok record
      else if ft.1 = some "anyOf" then
        match schema.anyOf with
        | none => .error .keyError
        | some props => do
          let sel ← anyOf_select_filter props
          match sel with
          | some p => filter_schema fuel p record
          | none => .ok .null
      else if ft.1 = some "object" then do
        let props := schema.properties.getD []
        let res ← filterObjAux (filter_schema fuel) props record
        .ok (.obj res)
      else if ft.1 = some "array" then do
        let props := schema.items.getD emptyJSchema
        let pt ← get_type props
        if pt.1 ≠ some "object" then .ok record
        else do
          let elems ← jIter record
          let res ← filterArrAux (filter_schema fuel) props elems
          .ok (.arr res)
      else .error .valueError

/-- A translated BigQuery column (`google.cloud.bigquery.SchemaField` as
`define_schema` constructs it): name, storage type (`none` when the
Python code passes `None` through), mode, child fields.  The description
argument is always `None` in the source and is omitted. -/
inductive BQField where
  | mk (name : String) (type : Option String) (mode : String)
       (fields : List BQField)

def BQField.name : BQField → String
  | .mk nm _ _ _ => nm

def BQField.type : BQField → Option String
  | .mk _ t _ _ => t

def BQField.mode : BQField → String
  | .mk _ _ m _ => m

def BQField.fields : BQField → List BQField
  | .mk _ _ _ f => f

/-- The `anyOf` loop of `define_schema` (lines 160-169 of `schema.py`):
running state is the current `field_type` and the replacement node;
alternatives whose kind is falsy (`None` or the empty string) are
skipped; while `field_type` is still `'anyOf'`, a truthy alternative
overwrites both. -/
def anyOf_select_define (ft : Option String) (fld : Option JSchema) :
    List JSchema → Except FErr (Option String × Option JSchema)
  | [] => .ok (ft, fld)
  | p :: rest => do
    let pt ← get_type p
    if pt.1 = none ∨ pt.1 = some "" then anyOf_select_define ft fld rest
    else if ft = some "anyOf" then anyOf_select_define pt.1 (some p) rest
    else anyOf_select_define ft fld rest

/-- The kind and node `define_schema` works with after its `anyOf`
resolution: `get_type` of the node, and, when that kind is `'anyOf'`,
the result of the selection loop (indexing `field['anyOf']` raises
`KeyError` when the kind came from a literal `type` of `'anyOf'`). -/
def resolvedType (field : JSchema) : Except FErr (Option String × JSchema) := do
  let ft ← get_type field
  if ft.1 = some "anyOf" then
    match field.anyOf with
    | none => .error .keyError
    | some props => do
      let r ← anyOf_select_define (some "anyOf") none props
      .ok (r.1, r.2.getD field)
  else .ok (ft.1, field)

/-- `schema.py` `bigquery_transformed_key` pass 1 and 3: `re.sub` of a
single character by `'_'` everywhere. -/
def subChar (a : Char) (l : List Char) : List Char :=
  l.map (fun c => if c == a then '_' else c)

/-- `schema.py` `bigquery_transformed_key` pass 2: `re.sub(r'^\d', '_')`
replaces the first character by `'_'` when it is a digit (the anchored
pattern matches at most once). -/
def subLeadingDigit : List Char → List Char
  | [] => []
  | c :: rest => (if c.isDigit then '_' else c) :: rest

/-- `schema.py` `bigquery_transformed_key`: hyphens to underscores, then
a leading digit to an underscore, then dots to underscores. -/
def bigquery_transformed_key (key : String) : String :=
  ⟨subChar '.' (subLeadingDigit (subChar '-' key.data))⟩

/-- The required-field set of `build_schema`: the caller-supplied key
properties when truthy, extended with the node's own `required` list when
truthy.  Sets only matter through membership and emptiness, so a list
suffices. -/
def requiredUnion (schema : JSchema) (kp : Option (List String)) :
    List String :=
  (match kp with
   | some l => if l.isEmpty then [] else l
   | none => []) ++
  (match schema.required with
   | some r => if r.isEmpty then [] else r
   | none => [])

/-- The `for key, props in schema['properties'].items()` loop of
`build_schema`: falsy property nodes are skipped, every other one is
translated by `g` (the recursive `define_schema` at the next-smaller
fuel) under its sanitized name. -/
def buildList (g : JSchema → String → List String → Except FErr BQField)
    (reqd : List String) :
    List (String × JSchema) → Except FErr (List BQField)
  | [] => .ok []
  | e :: rest =>
    if schemaFalsy e.2 then buildList g reqd rest
    else do
      let f ← g e.2 (bigquery_transformed_key e.1) reqd
      let tail ← buildList g reqd rest
      .ok (f :: tail)

/-- The body of `build_schema` over an abstract per-field translator `g`:
reading a missing `properties` entry raises `KeyError`. -/
def buildAux (g : JSchema → String → List String → Except FErr BQField)
    (schema : JSchema) (kp : Option (List String)) :
    Except FErr (List BQField) :=
  match schema.properties with
  | none => .error .keyError
  | some props => buildList g (requiredUnion schema kp) props

/-- `schema.py` `define_schema`: translate one schema node to a column.
The node's kind is resolved through `resolvedType`; the mode is
`'required'` exactly when the (non-empty) required set contains the
field name, except that arrays always get `'REPEATED'`; objects and
arrays of objects recurse through `build_schema` (without key
properties); strings and numbers honour their `format` entry; any other
kind raises `ValueError`. -/
def define_schema : Nat → JSchema → String → List String →
    Except FErr BQField
  | 0, _, _, _ => .error .fuelOut
  | fuel + 1, field, name, req => do
    let rt ← resolvedType field
    let nullable : Bool := if !req.isEmpty && req.contains name then false else true
    let mode : String := if nullable then "NULLABLE" else "required"
    let ft := rt.1
    let fld := rt.2
    if ft = some "object" then do
      let fields ← buildAux (define_schema fuel) fld none
      .ok (.mk name (some "RECORD") mode fields)
    else if ft = some "array" then do
      let props := fld.items.getD emptyJSchema
      let pt ← get_type props
      if pt.1 = some "object" then do
        let fields ← buildAux (define_schema fuel) props none
        .ok (.mk name (some "RECORD") "REPEATED" fields)
      else .ok (.mk name pt.1 "REPEATED" [])
    else if !isLiteral ft then .error .valueError
    else
      let sty : String :=
        if ft == some "string" && fld.format.isSome then
          match fld.format with
          | some "date-time" => "timestamp"
          | some "date" => "date"
          | some "time" => "time"
          | _ => "string"
        else if ft == some "number" then
          match fld.format.getD "" with
          | "float" => "FLOAT64"
          | "numeric" => "NUMERIC"
          | "bignumeric" => "BIGNUMERIC"
          | _ => "NUMERIC"
        else ft.getD ""
      .ok (.mk name (some sty) mode [])

/-- `schema.py` `build_schema`: translate every truthy property of an
object schema, making names legal and fields required according to the
union of the node's `required` list and the caller's key properties. -/
def build_schema (fuel : Nat) (schema : JSchema)
    (kp : Option (List String)) : Except FErr (List BQField) :=
  buildAux (define_schema fuel) schema kp

/-- A parsed Singer message: SCHEMA, RECORD, STATE, or anything else
(mapped to `InvalidSingerMessage` by both strategies). -/
inductive Msg where
  | schemaMsg (stream : String) (sch : JSchema) (keys : List String)
  | recordMsg (stream : String) (rec : JValue)
  | stateMsg (v : String)
  | invalidMsg

/-- Python dictionary membership on an insertion-ordered association
list. -/
def dmem (k : String) (l : List (String × α)) : Bool :=
  l.any (fun e => e.1 == k)

/-- Python dictionary read: the (unique) entry for `k`, if any. -/
def dlookup (k : String) (l : List (String × α)) : Option α :=
  (l.find? (fun e => e.1 == k)).map Prod.snd

/-- Python dictionary write: replaces the value in place when the key
exists (keeping its position), otherwise appends the new entry. -/
def dinsert (k : String) (v : α) (l : List (String × α)) :
    List (String × α) :=
  if dmem k l then l.map (fun e => if e.1 == k then (k, v) else e)
  else l ++ [(k, v)]

/-- Errors raised by the two persist loops. -/
inductive PErr where
  | schemaNotFound
  | invalidMessage
  | validationError
  | filterFail (e : FErr)
  | buildFail (e : FErr)
  | spoolKeyError
  | tablesKeyError
  | rowsKeyError
  | insertException
  | loadFailed (t : String)
deriving DecidableEq, Repr

/-- The decorated table name `table_prefix + msg.stream + table_suffix`
(both decorations already defaulted to `''`). -/
def decorate (pre post s : String) : String := pre ++ s ++ post

/-- The loop state of `persist_lines_job`: the pending checkpoint and
the four per-table dictionaries (`rows` maps each table to the spool
contents, i.e. the list of projected records written so far). -/
structure JobState where
  state : Option String
  schemas : List (String × JSchema)
  keyProps : List (String × List String)
  rows : List (String × List JValue)
  errors : List (String × Option Unit)

/-- Configuration of the batch strategy: table decorations, the
`validate_records` flag, the external JSON-Schema validator (an oracle:
`true` means `validate` does not raise), and the recursion fuel for the
embedded `schema.py` functions. -/
structure JobCfg where
  pre : String
  post : String
  vrec : Bool
  validateOk : JSchema → JValue → Bool
  fuel : Nat

/-- One iteration of the message loop of `persist_lines_job`
(`job.py` lines 85-146). -/
def stepJob (cfg : JobCfg) (st : JobState) : Msg → Except PErr JobState
  | .schemaMsg s sch keys =>
    let t := decorate cfg.pre cfg.post s
    if dmem t st.rows then .ok st
    else .ok { st with
      schemas := dinsert t sch st.schemas
      keyProps := dinsert t keys st.keyProps
      rows := dinsert t [] st.rows
      errors := dinsert t none st.errors }
  | .recordMsg s v =>
    let t := decorate cfg.pre cfg.post s
    match dlookup t st.schemas with
    | none => .error .schemaNotFound
    | some sch =>
      if cfg.vrec && !cfg.validateOk sch v then .error .validationError
      else
        match filter_schema cfg.fuel sch v with
        | .error e => .error (.filterFail e)
        | .ok fv =>
          match dlookup t st.rows with
          | none => .error .spoolKeyError
          | some spool =>
            .ok { st with
              rows := dinsert t (spool ++ [fv]) st.rows
              state := none }
  | .stateMsg v => .ok { st with state := some v }
  | .invalidMsg => .error .invalidMessage

/-- The empty starting state of `persist_lines_job`. -/
def initJob : JobState := ⟨none, [], [], [], []⟩

/-- The whole message loop of `persist_lines_job` over a list of parsed
messages. -/
def processJob (cfg : JobCfg) (msgs : List Msg) : Except PErr JobState :=
  msgs.foldlM (stepJob cfg) initJob

/-- The load loop of `persist_lines_job` (`job.py` lines 149-194) over
the table names in registration order.  `loadOk` is the BigQuery load
oracle (`false` means `load_job.result()` raises).  Returns the list of
tables whose load was started together with either the failure or the
final `yield state` (a one-element list: the checkpoint is yielded
exactly once).  Each table's column schema is built (with its key
properties) before its load; a translation failure aborts the loop
before that load starts. -/
def loadPhase (cfg : JobCfg) (loadOk : String → Bool) (st : JobState) :
    List String → List String × Except PErr (List (Option String))
  | [] => ([], .ok [st.state])
  | t :: rest =>
    match dlookup t st.schemas, dlookup t st.keyProps with
    | some sch, some kp =>
      match build_schema cfg.fuel sch (some kp) with
      | .error e => ([], .error (.buildFail e))
      | .ok _ =>
        if loadOk t then
          let r := loadPhase cfg loadOk st rest
          (t :: r.1, r.2)
        else ([t], .error (.loadFailed t))
    | _, _ => ([], .error .spoolKeyError)

/-- `job.py` `persist_lines_job`, end to end: process every message,
then run one load per registered table, yielding the pending checkpoint
only after all loads succeed.  The first component lists the tables
whose load was started, in order. -/
def persist_lines_job (cfg : JobCfg) (loadOk : String → Bool)
    (msgs : List Msg) : List String × Except PErr (List (Option String)) :=
  match processJob cfg msgs with
  | .error e => ([], .error e)
  | .ok st => loadPhase cfg loadOk st (st.rows.map Prod.fst)

/-- The loop state of `persist_lines_stream`: pending checkpoint,
per-table schema and key-property dictionaries, the translated column
list registered for each table, the accepted-record counters and the
per-key insert-error slots. -/
structure StreamState where
  state : Option String
  schemas : List (String × JSchema)
  keyProps : List (String × List String)
  tables : List (String × List BQField)
  rows : List (String × Nat)
  errors : List (String × Option Unit)

/-- Configuration of the streaming strategy.  `insertRows` is the
oracle for `client.insert_rows`: an `Except.error` means the call
raised, `Except.ok err` is the returned error list (`none` for an empty
one).  Table creation, deletion and the recreation cool-down only touch
the external warehouse, not the loop state, and are omitted. -/
structure StreamCfg where
  pre : String
  post : String
  vrec : Bool
  validateOk : JSchema → JValue → Bool
  insertRows : String → JValue → Except Unit (Option Unit)
  fuel : Nat

/-- One iteration of the message loop of `persist_lines_stream`
(`stream.py` lines 88-189).  A `build_schema` failure aborts the whole
run, so the Python assignments to `schemas`/`key_properties` that
precede it are never observable and the step is modelled as failing
whole.  Note the record branch: the schema and table handle are read
under the decorated table name, but the error slot and the
accepted-record counter are written and read under the raw
`msg.stream` (`stream.py` lines 178-179); the counter read raises
`KeyError` when the two differ. -/
def stepStream (cfg : StreamCfg) (st : StreamState) :
    Msg → Except PErr StreamState
  | .schemaMsg s sch keys =>
    let t := decorate cfg.pre cfg.post s
    match build_schema cfg.fuel sch none with
    | .error e => .error (.buildFail e)
    | .ok fields =>
      .ok { st with
        schemas := dinsert t sch st.schemas
        keyProps := dinsert t keys st.keyProps
        tables := dinsert t fields st.tables
        rows := dinsert t 0 st.rows
        errors := dinsert t none st.errors }
  | .recordMsg s v =>
    let t := decorate cfg.pre cfg.post s
    match dlookup t st.schemas with
    | none => .error .schemaNotFound
    | some sch =>
      match dlookup t st.tables with
      | none => .error .tablesKeyError
      | some _ =>
        if cfg.vrec && !cfg.validateOk sch v then .error .validationError
        else
          match filter_schema cfg.fuel sch v with
          | .error e => .error (.filterFail e)
          | .ok fv =>
            match cfg.insertRows t fv with
            | .error _ => .error .insertException
            | .ok err =>
              match dlookup s st.rows with
              | none => .error .rowsKeyError
              | some cnt =>
                .ok { st with
                  errors := dinsert s err st.errors
                  rows := dinsert s (cnt + 1) st.rows
                  state := none }
  | .stateMsg v => .ok { st with state := some v }
  | .invalidMsg => .error .invalidMessage

/-- The empty starting state of `persist_lines_stream`. -/
def initStream : StreamState := ⟨none, [], [], [], [], []⟩

/-- The whole message loop of `persist_lines_stream`. -/
def processStream (cfg : StreamCfg) (msgs : List Msg) :
    Except PErr StreamState :=
  msgs.foldlM (stepStream cfg) initStream

/-- The effect of one event on the single-slot pending checkpoint as
the specification describes it: a STATE event overwrites the slot, a
RECORD event clears it, nothing else touches it. -/
def pendStep (acc : Option String) (m : Msg) : Option String :=
  match m with
  | .stateMsg v => some v
  | .recordMsg _ _ => none
  | _ => acc

/-- The single-slot pending checkpoint after a list of events: the most
recent STATE value unless a RECORD event followed it (no queue is
kept). -/
def pendingCheckpoint (msgs : List Msg) : Option String :=
  msgs.foldl pendStep none

/-! ## Concrete sample inputs used by witnesses and counterexamples -/

/-- The schema node `{"type": "integer"}`. -/
def intNode : JSchema := .mk none (some (.str "integer")) none none none none

/-- The schema node `{"type": "object", "properties": {"id": {"type": "integer"}}}`. -/
def objNode : JSchema :=
  .mk none (some (.str "object")) (some [("id", intNode)]) none none none

/-- The alternative `{"type": "null"}`. -/
def nullAlt : JSchema := .mk none (some (.str "null")) none none none none

/-- The alternative `{"type": "string"}`. -/
def strAlt : JSchema := .mk none (some (.str "string")) none none none none

/-- The union node `{"anyOf": [{"type": "null"}, {"type": "string"}]}`. -/
def unionNS : JSchema := .mk (some [nullAlt, strAlt]) none none none none none

/-- A batch configuration with no table decorations and validation off. -/
def cfgJ : JobCfg := ⟨"", "", false, fun _ _ => true, 3⟩

/-- A streaming configuration with no table decorations, validation off
and an insert oracle that always succeeds. -/
def cfgS : StreamCfg := ⟨"", "", false, fun _ _ => true, fun _ _ => .ok none, 3⟩

/-- The same streaming configuration with table prefix `"p_"`. -/
def cfgSP : StreamCfg := ⟨"p_", "", false, fun _ _ => true, fun _ _ => .ok none, 3⟩

/-! ## Specification-side definitions -/

/-- The field-name transformation as a single pointwise pass: the first
character also becomes an underscore when it is a digit, every hyphen
and every dot becomes an underscore. -/
def specTransformKey : List Char → List Char
  | [] => []
  | c :: rest =>
    (if c.isDigit || c == '-' || c == '.' then '_' else c) ::
      rest.map (fun x => if x == '-' || x == '.' then '_' else x)

/-! ## Theorems -/

/-- C10: for every type node, including nodes whose kind is missing or
unknown, and every absent or empty value (`None`, `False`, `0`, `''`,
`[]`, `{}`), `filter_schema` returns the value unchanged and raises no
error, without inspecting the schema node at all. -/
theorem filter_schema_empty_passthrough (fuel : Nat) (schema : JSchema)
    (v : JValue) (h : jFalsy v = true) :
    filter_schema fuel schema v = .ok v := by
  cases fuel <;> simp [filter_schema, h]

theorem filter_schema_empty_passthrough_witness :
    jFalsy (.obj []) = true ∧
      filter_schema 0 emptyJSchema (.obj []) = .ok (.obj []) :=
  ⟨rfl, filter_schema_empty_passthrough 0 emptyJSchema (.obj []) rfl⟩

/-- C9: under the batch strategy a repeated schema event for a stream
whose table already has a spool registered is ignored: the whole loop
state — this stream's registration and every other stream's — is
returned unchanged. -/
theorem stepJob_repeated_schema_ignored (cfg : JobCfg) (st : JobState)
    (s : String) (sch : JSchema) (keys : List String)
    (h : dmem (decorate cfg.pre cfg.post s) st.rows = true) :
    stepJob cfg st (.schemaMsg s sch keys) = .ok st := by
  simp [stepJob, h]

theorem stepJob_repeated_schema_ignored_witness :
    dmem (decorate cfgJ.pre cfgJ.post "t")
        (JobState.rows ⟨none, [("t", objNode)], [("t", [])], [("t", [])],
          [("t", none)]⟩) = true ∧
      stepJob cfgJ
          ⟨none, [("t", objNode)], [("t", [])], [("t", [])], [("t", none)]⟩
          (.schemaMsg "t" emptyJSchema ["k"]) =
        .ok ⟨none, [("t", objNode)], [("t", [])], [("t", [])], [("t", none)]⟩ :=
  ⟨rfl, stepJob_repeated_schema_ignored cfgJ _ "t" emptyJSchema ["k"] rfl⟩


/-- C5 counterexample: the claim says an identifier beginning with a
digit is prefixed with the digit preserved; in fact `re.sub(r'^\d', '_')`
replaces the leading digit, so `"1a"` becomes `"_a"` and the digit `'1'`
survives nowhere in the output. -/
theorem bigquery_transformed_key_digit_dropped :
    bigquery_transformed_key "1a" = "_a" ∧
      ∀ c ∈ (bigquery_transformed_key "1a").data, c ≠ '1' := by
  constructor
  · rfl
  · decide

theorem subChar_subChar_comm (l : List Char) :
    subChar '-' (subChar '.' l) = subChar '.' (subChar '-' l) := by
  simp only [subChar, List.map_map]
  refine List.map_congr_left ?_
  intro c _
  simp only [Function.comp]
  by_cases h1 : c = '-'
  · subst h1; decide
  · by_cases h2 : c = '.'
    · subst h2; decide
    · simp [beq_eq_false_iff_ne.mpr h1, beq_eq_false_iff_ne.mpr h2]

theorem subChar_subLeadingDigit_comm (a : Char) (ha : a.isDigit = false)
    (ha' : ('_' == a) = false) (l : List Char) :
    subChar a (subLeadingDigit l) = subLeadingDigit (subChar a l) := by
  cases l with
  | nil => rfl
  | cons c rest =>
    simp only [subChar, subLeadingDigit, List.map]
    congr 1
    by_cases hca : c = a
    · subst hca
      simp only [ha, beq_self_eq_true, if_true, if_false, Bool.false_eq_true]
      simp [ha']
    · have hb : (c == a) = false := beq_eq_false_iff_ne.mpr hca
      cases hd : c.isDigit
      · simp [hb, hd]
      · simp [hb, hd, ha']

/-- C5 amended: `bigquery_transformed_key` maps every hyphen and every
dot to an underscore and replaces a leading digit with an underscore
(the digit is not preserved behind a prefix); the three substitution
passes commute, so their order is irrelevant. -/
theorem bigquery_transformed_key_spec :
    (∀ key : String,
        (bigquery_transformed_key key).data = specTransformKey key.data) ∧
      (∀ l : List Char,
        subChar '-' (subLeadingDigit l) = subLeadingDigit (subChar '-' l)) ∧
      (∀ l : List Char,
        subChar '.' (subLeadingDigit l) = subLeadingDigit (subChar '.' l)) ∧
      (∀ l : List Char,
        subChar '-' (subChar '.' l) = subChar '.' (subChar '-' l)) := by
  refine ⟨?_, fun l => subChar_subLeadingDigit_comm '-' (by decide) (by decide) l,
    fun l => subChar_subLeadingDigit_comm '.' (by decide) (by decide) l,
    subChar_subChar_comm⟩
  intro key
  show subChar '.' (subLeadingDigit (subChar '-' key.data)) =
    specTransformKey key.data
  cases key.data with
  | nil => rfl
  | cons c rest =>
    simp only [subChar, subLeadingDigit, List.map, specTransformKey,
      List.map_map]
    congr 1
    · by_cases h1 : c = '-'
      · subst h1; decide
      · by_cases h2 : c = '.'
        · subst h2; decide
        · have b1 : (c == '-') = false := beq_eq_false_iff_ne.mpr h1
          have b2 : (c == '.') = false := beq_eq_false_iff_ne.mpr h2
          cases hd : c.isDigit
          · simp [b1, b2, hd]
          · simp [b1, b2, hd]
    · refine List.map_congr_left ?_
      intro x _
      simp only [Function.comp]
      by_cases h1 : x = '-'
      · subst h1; decide
      · by_cases h2 : x = '.'
        · subst h2; decide
        · simp [beq_eq_false_iff_ne.mpr h1, beq_eq_false_iff_ne.mpr h2]


/-- C3 counterexample: on the union `{"anyOf": [{"type": "null"},
{"type": "string"}]}` the translator's loop keeps the `{"type": "null"}`
alternative (its kind, the string `'null'`, is truthy) and
`define_schema` then fails on the unknown kind, while the projector's
loop skips it and recurses into `{"type": "string"}`, passing a string
record through — the two select different alternatives. -/
theorem union_selection_disagrees :
    resolvedType unionNS = .ok (some "null", nullAlt) ∧
      define_schema 2 unionNS "f" [] = .error .valueError ∧
      anyOf_select_filter [nullAlt, strAlt] = .ok (some strAlt) ∧
      filter_schema 2 unionNS (.s "x") = .ok (.s "x") ∧
      nullAlt ≠ strAlt :=
  ⟨rfl, rfl, rfl, rfl, by
    intro h
    exact absurd (congrArg JSchema.type h) (by decide)⟩

theorem anyOf_select_define_stall (rest : List JSchema)
    (ft : Option String) (fld : Option JSchema) (hft : ft ≠ some "anyOf")
    (hrest : ∀ q ∈ rest, ∃ r, get_type q = .ok r) :
    anyOf_select_define ft fld rest = .ok (ft, fld) := by
  induction rest with
  | nil => rfl
  | cons q rest ih =>
    obtain ⟨r, hr⟩ := hrest q (List.mem_cons_self q rest)
    have ih2 := ih fun q hq => hrest q (List.mem_cons_of_mem _ hq)
    by_cases h0 : r.1 = none ∨ r.1 = some ""
    · simp [anyOf_select_define, hr, h0, ih2, bind, Except.bind]
    · simp [anyOf_select_define, hr, h0, hft, ih2, bind, Except.bind]

/-- C3 amended: the translator's loop selects the first alternative
whose kind is truthy — which includes the `'null'` kind — while the
projector's loop selects the first alternative whose kind is not the
string `'null'` — which includes absent kinds; the two agree whenever
the first alternative resolves to a proper kind (present, non-empty,
not the null marker, not a nested union) and the remaining alternatives
are type-resolvable, in which case both select that first
alternative. -/
theorem anyOf_select_agree (p : JSchema) (rest : List JSchema)
    (k : String) (b : Bool) (hk : get_type p = .ok (some k, b))
    (h1 : k ≠ "") (h2 : k ≠ "null") (h3 : k ≠ "anyOf")
    (hrest : ∀ q ∈ rest, ∃ r, get_type q = .ok r) :
    anyOf_select_define (some "anyOf") none (p :: rest) =
        .ok (some k, some p) ∧
      anyOf_select_filter (p :: rest) = .ok (some p) := by
  constructor
  · have : anyOf_select_define (some k) (some p) rest = .ok (some k, some p) :=
      anyOf_select_define_stall rest (some k) (some p)
        (by simpa using h3) hrest
    simp [anyOf_select_define, hk, h1, this, bind, Except.bind]
  · simp [anyOf_select_filter, hk, h2, bind, Except.bind]

theorem anyOf_select_agree_witness :
    get_type strAlt = .ok (some "string", false) ∧
      anyOf_select_define (some "anyOf") none [strAlt, nullAlt] =
        .ok (some "string", some strAlt) ∧
      anyOf_select_filter [strAlt, nullAlt] = .ok (some strAlt) :=
  ⟨rfl,
    (anyOf_select_agree strAlt [nullAlt] "string" false rfl
      (by decide) (by decide) (by decide)
      (fun q hq => by
        simp only [List.mem_singleton] at hq
        exact hq ▸ ⟨(some "null", false), rfl⟩)).1,
    (anyOf_select_agree strAlt [nullAlt] "string" false rfl
      (by decide) (by decide) (by decide)
      (fun q hq => by
        simp only [List.mem_singleton] at hq
        exact hq ▸ ⟨(some "null", false), rfl⟩)).2⟩

/-- C6: with a non-empty table prefix the streaming record branch reads
the accepted-record counter under the raw stream name instead of the
decorated table name it registered, so the very first record fails with
`KeyError`; with empty decorations the same input is processed and the
counter reaches 1. -/
theorem stream_counter_uses_raw_stream_name :
    processStream cfgSP
        [.schemaMsg "s" objNode [], .recordMsg "s" (.obj [("id", .n 1)])] =
      .error .rowsKeyError ∧
      processStream cfgS
          [.schemaMsg "s" objNode [], .recordMsg "s" (.obj [("id", .n 1)])] =
        .ok ⟨none, [("s", objNode)], [("s", [])],
          [("s", [.mk "id" (some "integer") "NULLABLE" []])],
          [("s", 1)], [("s", none)]⟩ :=
  ⟨rfl, rfl⟩


theorem dmem_iff_dlookup (k : String) (l : List (String × α)) :
    dmem k l = true ↔ ∃ v, dlookup k l = some v := by
  induction l with
  | nil => simp [dmem, dlookup]
  | cons e rest ih =>
    cases he : e.1 == k with
    | true => simp [dmem, dlookup, List.find?, he]
    | false => simpa [dmem, dlookup, List.find?, he] using ih

theorem filterObjAux_spec (g : JSchema → JValue → Except FErr JValue) :
    ∀ (props : List (String × JSchema)) (kvs : List (String × JValue))
      (res : List (String × JValue)),
      filterObjAux g props (.obj kvs) = .ok res →
      (∀ k : String,
          (∃ v, (k, v) ∈ res) ↔
            ((∃ p, (k, p) ∈ props) ∧ dmem k kvs = true)) ∧
        (∀ k v, (k, v) ∈ res →
          ∃ p, (k, p) ∈ props ∧
            ∃ rv, dlookup k kvs = some rv ∧ g p rv = .ok v) := by
  intro props
  induction props with
  | nil =>
    intro kvs res h
    simp only [filterObjAux, Except.ok.injEq] at h
    subst h
    simp
  | cons e rest ih =>
    intro kvs res h
    simp only [filterObjAux, jMem, bind, Except.bind] at h
    cases hm : kvs.any (fun x => x.1 == e.1) with
    | false =>
      rw [hm] at h
      simp only [Bool.false_eq_true, if_false] at h
      obtain ⟨hmem, hval⟩ := ih kvs res h
      have hdm : dmem e.1 kvs = false := hm
      constructor
      · intro k
        rw [hmem k]
        constructor
        · rintro ⟨⟨p, hp⟩, hd⟩
          exact ⟨⟨p, List.mem_cons_of_mem _ hp⟩, hd⟩
        · rintro ⟨⟨p, hp⟩, hd⟩
          rcases List.mem_cons.mp hp with hp | hp
          · exfalso
            have : k = e.1 := congrArg Prod.fst hp
            rw [this] at hd
            rw [hd] at hdm
            cases hdm
          · exact ⟨⟨p, hp⟩, hd⟩
      · intro k v hkv
        obtain ⟨p, hp, rv, hrv, hg⟩ := hval k v hkv
        exact ⟨p, List.mem_cons_of_mem _ hp, rv, hrv, hg⟩
    | true =>
      rw [hm] at h
      simp only [if_true] at h
      have hdm : dmem e.1 kvs = true := hm
      obtain ⟨rv0, hrv0⟩ := (dmem_iff_dlookup e.1 kvs).mp hdm
      have hfind : kvs.find? (fun x => x.1 == e.1) =
          some ((kvs.find? (fun x => x.1 == e.1)).getD (e.1, rv0)) := by
        simp only [dlookup] at hrv0
        cases hf : kvs.find? (fun x => x.1 == e.1)
        · rw [hf] at hrv0; cases hrv0
        · rfl
      rw [jGet] at h
      rw [hfind] at h
      simp only [bind, Except.bind] at h
      cases hg : g e.2 ((kvs.find? (fun x => x.1 == e.1)).getD (e.1, rv0)).2 with
      | error er => rw [hg] at h; cases h
      | ok fv =>
        rw [hg] at h
        cases ht : filterObjAux g rest (.obj kvs) with
        | error er => rw [ht] at h; cases h
        | ok tail =>
          rw [ht] at h
          simp only [Except.ok.injEq] at h
          subst h
          obtain ⟨hmem, hval⟩ := ih kvs tail ht
          have hrv0v : dlookup e.1 kvs =
              some ((kvs.find? (fun x => x.1 == e.1)).getD (e.1, rv0)).2 := by
            simp only [dlookup]
            rw [hfind]
            rfl
          constructor
          · intro k
            constructor
            · rintro ⟨v, hv⟩
              rcases List.mem_cons.mp hv with hv | hv
              · have hk1 : k = e.1 := congrArg Prod.fst hv
                subst hk1
                exact ⟨⟨e.2, List.mem_cons_self _ _⟩, hdm⟩
              · obtain ⟨⟨p, hp⟩, hd⟩ := (hmem k).mp ⟨v, hv⟩
                exact ⟨⟨p, List.mem_cons_of_mem _ hp⟩, hd⟩
            · rintro ⟨⟨p, hp⟩, hd⟩
              rcases List.mem_cons.mp hp with hp | hp
              · have hk1 : k = e.1 := congrArg Prod.fst hp
                subst hk1
                exact ⟨fv, List.mem_cons_self _ _⟩
              · by_cases hke : k = e.1
                · subst hke
                  exact ⟨fv, List.mem_cons_self _ _⟩
                · obtain ⟨v, hv⟩ := (hmem k).mpr ⟨⟨p, hp⟩, hd⟩
                  exact ⟨v, List.mem_cons_of_mem _ hv⟩
          · intro k v hkv
            rcases List.mem_cons.mp hkv with hkv | hkv
            · have hk1 : k = e.1 := congrArg Prod.fst hkv
              have hv1 : v = fv := congrArg Prod.snd hkv
              subst hk1; subst hv1
              exact ⟨e.2, List.mem_cons_self _ _, _, hrv0v, hg⟩
            · obtain ⟨p, hp, rv, hrv, hgv⟩ := hval k v hkv
              exact ⟨p, List.mem_cons_of_mem _ hp, rv, hrv, hgv⟩

/-- C7: on an object node, projection keeps exactly the declared child
keys that are present in the input object — no schema-declared field
present in the value is dropped, no key absent from the schema is
introduced — and each kept key's value is the recursive projection of
the input's value at that key. -/
theorem filter_schema_object_projection (fuel : Nat) (schema : JSchema)
    (b : Bool) (kvs : List (String × JValue)) (w : JValue)
    (hk : get_type schema = .ok (some "object", b))
    (hne : jFalsy (.obj kvs) = false)
    (hw : filter_schema (fuel + 1) schema (.obj kvs) = .ok w) :
    ∃ res, w = .obj res ∧
      (∀ k : String,
          (∃ v, (k, v) ∈ res) ↔
            ((∃ p, (k, p) ∈ schema.properties.getD []) ∧
              dmem k kvs = true)) ∧
        (∀ k v, (k, v) ∈ res →
          ∃ p, (k, p) ∈ schema.properties.getD [] ∧
            ∃ rv, dlookup k kvs = some rv ∧
              filter_schema fuel p rv = .ok v) := by
  simp only [filter_schema, hne, Bool.false_eq_true, if_false, hk, bind,
    Except.bind, isLiteral] at hw
  simp only [String.reduceEq, Option.some.injEq, if_false,
    Bool.or_false, Bool.or_self] at hw
  cases hobj : filterObjAux (filter_schema fuel)
      (schema.properties.getD []) (.obj kvs) with
  | error er => rw [hobj] at hw; cases hw
  | ok res =>
    rw [hobj] at hw
    simp at hw
    subst hw
    exact ⟨res, rfl, filterObjAux_spec (filter_schema fuel)
      (schema.properties.getD []) kvs res hobj⟩

theorem filter_schema_object_projection_witness :
    get_type objNode = .ok (some "object", false) ∧
      jFalsy (.obj [("id", .n 1), ("x", .b true)]) = false ∧
      filter_schema 2 objNode (.obj [("id", .n 1), ("x", .b true)]) =
        .ok (.obj [("id", .n 1)]) ∧
      (∃ res, (JValue.obj [("id", .n 1)]) = .obj res ∧
        (∀ k : String,
            (∃ v, (k, v) ∈ res) ↔
              ((∃ p, (k, p) ∈ objNode.properties.getD []) ∧
                dmem k [("id", JValue.n 1), ("x", JValue.b true)] = true)) ∧
          (∀ k v, (k, v) ∈ res →
            ∃ p, (k, p) ∈ objNode.properties.getD [] ∧
              ∃ rv, dlookup k [("id", JValue.n 1), ("x", JValue.b true)] =
                  some rv ∧
                filter_schema 1 p rv = .ok v)) :=
  ⟨rfl, rfl, rfl,
    filter_schema_object_projection 1 objNode false
      [("id", .n 1), ("x", .b true)] (.obj [("id", .n 1)]) rfl rfl rfl⟩


theorem dmem_false_find?_none (k : String) (l : List (String × α))
    (h : dmem k l = false) : l.find? (fun e => e.1 == k) = none := by
  cases hf : l.find? (fun e => e.1 == k) with
  | none => rfl
  | some e =>
    exfalso
    have : ∃ v, dlookup k l = some v := ⟨e.2, by simp [dlookup, hf]⟩
    rw [← dmem_iff_dlookup] at this
    rw [h] at this
    cases this

theorem dlookup_dinsert (k : String) (v : α) (l : List (String × α)) :
    dlookup k (dinsert k v l) = some v := by
  by_cases h : dmem k l = true
  · simp only [dinsert, h, if_true]
    induction l with
    | nil => cases h
    | cons e rest ih =>
      cases he : e.1 == k with
      | true => simp [dlookup, List.find?, he]
      | false =>
        have h2 : dmem k rest = true := by
          simp only [dmem, List.any, he, Bool.false_or] at h
          exact h
        have := ih h2
        simp only [List.map]
        simp only [dlookup, List.find?, he] at this ⊢
        simpa [he] using this
  · simp only [dinsert, h, if_false]
    have hn := dmem_false_find?_none k l (by simpa using h)
    simp [dlookup, List.find?_append, hn, List.find?]

theorem mode_required_iff (req : List String) (name : String) :
    ((if (if !req.isEmpty && req.contains name then false else true)
        then "NULLABLE" else "required") = "required") ↔
      req.contains name = true := by
  cases hc : req.contains name with
  | true =>
    have hne : req.isEmpty = false := by
      cases req with
      | nil => cases hc
      | cons a l => rfl
    simp [hc, hne]
  | false => simp [hc]

theorem buildList_mem (g : JSchema → String → List String → Except FErr BQField)
    (reqd : List String) :
    ∀ (props : List (String × JSchema)) (res : List BQField),
      buildList g reqd props = .ok res →
      ∀ f ∈ res, ∃ k p, (k, p) ∈ props ∧ schemaFalsy p = false ∧
        g p (bigquery_transformed_key k) reqd = .ok f := by
  intro props
  induction props with
  | nil =>
    intro res h f hf
    simp only [buildList, Except.ok.injEq] at h
    subst h
    cases hf
  | cons e rest ih =>
    intro res h f hf
    simp only [buildList] at h
    cases hsf : schemaFalsy e.2 with
    | true =>
      rw [hsf] at h
      simp only [if_true] at h
      obtain ⟨k, p, hp, hpf, hg⟩ := ih res h f hf
      exact ⟨k, p, List.mem_cons_of_mem _ hp, hpf, hg⟩
    | false =>
      rw [hsf] at h
      simp only [Bool.false_eq_true, if_false, bind, Except.bind] at h
      cases hg : g e.2 (bigquery_transformed_key e.1) reqd with
      | error er => rw [hg] at h; cases h
      | ok f0 =>
        rw [hg] at h
        cases ht : buildList g reqd rest with
        | error er => rw [ht] at h; cases h
        | ok tail =>
          rw [ht] at h
          simp only [Except.ok.injEq] at h
          subst h
          rcases List.mem_cons.mp hf with hf | hf
          · subst hf
            exact ⟨e.1, e.2, List.mem_cons_self _ _, hsf, hg⟩
          · obtain ⟨k, p, hp, hpf, hg2⟩ := ih tail ht f hf
            exact ⟨k, p, List.mem_cons_of_mem _ hp, hpf, hg2⟩

theorem define_schema_mode (fuel : Nat) (field : JSchema) (name : String)
    (req : List String) (f : BQField)
    (h : define_schema (fuel + 1) field name req = .ok f) :
    ∃ rt fld, resolvedType field = .ok (rt, fld) ∧ f.name = name ∧
      (rt = some "array" → f.mode = "REPEATED") ∧
      (rt ≠ some "array" →
        (f.mode = "required" ↔ req.contains name = true)) := by
  simp only [define_schema, bind, Except.bind] at h
  split at h
  · exact Except.noConfusion h
  next rtp heq =>
    refine ⟨rtp.1, rtp.2, heq, ?_⟩
    split at h
    next hobj =>
      split at h
      · exact Except.noConfusion h
      next fields heq2 =>
        injection h with h2
        subst h2
        refine ⟨rfl, fun harr => ?_, fun _ => mode_required_iff req name⟩
        rw [hobj] at harr
        exact absurd harr (by decide)
    next hnobj =>
      split at h
      next harr =>
        split at h
        · exact Except.noConfusion h
        next pt heq2 =>
          split at h
          next hpo =>
            split at h
            · exact Except.noConfusion h
            next fields heq3 =>
              injection h with h2
              subst h2
              exact ⟨rfl, fun _ => rfl, fun hne => absurd harr hne⟩
          next hnpo =>
            injection h with h2
            subst h2
            exact ⟨rfl, fun _ => rfl, fun hne => absurd harr hne⟩
      next hnarr =>
        split at h
        · exact Except.noConfusion h
        next hl =>
          injection h with h2
          subst h2
          exact ⟨rfl, fun hx => absurd hx hnarr,
            fun _ => mode_required_iff req name⟩

/-- C4 amended: in a translated column list a field's mode is
`'required'` exactly when its (sanitized) name is in the union of the
node's own `required` list and the `build_schema` caller's key-property
set; array fields always get mode `'REPEATED'` regardless.  The batch
strategy passes each table's key properties to `build_schema`, but the
streaming strategy registers `build_schema sch none` — its key-property
set is not passed, so under streaming only the node's own `required`
list makes a field non-nullable. -/
theorem build_schema_modes :
    (∀ (fuel : Nat) (schema : JSchema) (kp : Option (List String))
        (fields : List BQField),
      build_schema fuel schema kp = .ok fields →
      ∃ props, schema.properties = some props ∧
        ∀ f ∈ fields, ∃ k p rt fld, (k, p) ∈ props ∧
          f.name = bigquery_transformed_key k ∧
          resolvedType p = .ok (rt, fld) ∧
          (rt = some "array" → f.mode = "REPEATED") ∧
          (rt ≠ some "array" →
            (f.mode = "required" ↔
              bigquery_transformed_key k ∈ requiredUnion schema kp))) ∧
      (∀ (cfg : StreamCfg) (st st' : StreamState) (s : String)
          (sch : JSchema) (keys : List String),
        stepStream cfg st (.schemaMsg s sch keys) = .ok st' →
        ∃ fields, build_schema cfg.fuel sch none = .ok fields ∧
          dlookup (decorate cfg.pre cfg.post s) st'.tables = some fields) := by
  constructor
  · intro fuel schema kp fields h
    simp only [build_schema, buildAux] at h
    cases hp : schema.properties with
    | none => rw [hp] at h; cases h
    | some props =>
      rw [hp] at h
      refine ⟨props, rfl, fun f hf => ?_⟩
      obtain ⟨k, p, hkp, hpf, hg⟩ :=
        buildList_mem (define_schema fuel) (requiredUnion schema kp)
          props fields h f hf
      cases fuel with
      | zero => cases hg
      | succ fuel =>
        obtain ⟨rt, fld, hrt, hn, ha, hs⟩ :=
          define_schema_mode fuel p (bigquery_transformed_key k)
            (requiredUnion schema kp) f hg
        refine ⟨k, p, rt, fld, hkp, hn, hrt, ha, fun hne => ?_⟩
        rw [hs hne]
        exact List.elem_iff
  · intro cfg st st' s sch keys h
    simp only [stepStream] at h
    cases hb : build_schema cfg.fuel sch none with
    | error er => rw [hb] at h; cases h
    | ok fields =>
      rw [hb] at h
      simp only [Except.ok.injEq] at h
      subst h
      exact ⟨fields, rfl, dlookup_dinsert _ _ _⟩

theorem build_schema_modes_witness :
    build_schema 3 objNode (some ["id"]) =
        .ok [.mk "id" (some "integer") "required" []] ∧
      (∃ props, objNode.properties = some props ∧
        ∀ f ∈ [BQField.mk "id" (some "integer") "required" []],
          ∃ k p rt fld, (k, p) ∈ props ∧
            f.name = bigquery_transformed_key k ∧
            resolvedType p = .ok (rt, fld) ∧
            (rt = some "array" → f.mode = "REPEATED") ∧
            (rt ≠ some "array" →
              (f.mode = "required" ↔
                bigquery_transformed_key k ∈
                  requiredUnion objNode (some ["id"])))) ∧
      stepStream cfgS initStream (.schemaMsg "t" objNode ["id"]) =
        .ok ⟨none, [("t", objNode)], [("t", ["id"])],
          [("t", [.mk "id" (some "integer") "NULLABLE" []])],
          [("t", 0)], [("t", none)]⟩ ∧
      (∃ fields, build_schema cfgS.fuel objNode none = .ok fields ∧
        dlookup (decorate cfgS.pre cfgS.post "t")
            (StreamState.tables ⟨none, [("t", objNode)], [("t", ["id"])],
              [("t", [.mk "id" (some "integer") "NULLABLE" []])],
              [("t", 0)], [("t", none)]⟩) = some fields) :=
  ⟨rfl,
    build_schema_modes.1 3 objNode (some ["id"])
      [.mk "id" (some "integer") "required" []] rfl,
    rfl,
    build_schema_modes.2 cfgS initStream _ "t" objNode ["id"] rfl⟩

/-- C4 counterexample: the claim asserts the required-iff rule under
both strategies, but the streaming strategy never hands the caller's
key-property set to the translator: registering stream `"t"` with key
properties `["id"]` and a schema without a `required` list yields a
`'NULLABLE'` column for `id`, although `"id"` is in the union the claim
describes (the batch call with the same inputs yields `'required'`). -/
theorem stream_key_properties_ignored :
    processStream cfgS [.schemaMsg "t" objNode ["id"]] =
        .ok ⟨none, [("t", objNode)], [("t", ["id"])],
          [("t", [.mk "id" (some "integer") "NULLABLE" []])],
          [("t", 0)], [("t", none)]⟩ ∧
      "id" ∈ requiredUnion objNode (some ["id"]) ∧
      BQField.mode (.mk "id" (some "integer") "NULLABLE" []) ≠ "required" ∧
      build_schema 3 objNode (some ["id"]) =
        .ok [.mk "id" (some "integer") "required" []] :=
  ⟨rfl, by decide, by decide, rfl⟩


theorem stepJob_state (cfg : JobCfg) (st : JobState) (m : Msg)
    (st' : JobState) (h : stepJob cfg st m = .ok st') :
    st'.state = pendStep st.state m := by
  cases m with
  | schemaMsg s sch keys =>
    simp only [stepJob] at h
    split at h <;> (injection h with h2; subst h2; rfl)
  | recordMsg s v =>
    simp only [stepJob] at h
    split at h
    · exact Except.noConfusion h
    · split at h
      · exact Except.noConfusion h
      · split at h
        · exact Except.noConfusion h
        · split at h
          · exact Except.noConfusion h
          · injection h with h2; subst h2; rfl
  | stateMsg v =>
    simp only [stepJob] at h
    injection h with h2; subst h2; rfl
  | invalidMsg => exact Except.noConfusion h

theorem stepStream_state (cfg : StreamCfg) (st : StreamState) (m : Msg)
    (st' : StreamState) (h : stepStream cfg st m = .ok st') :
    st'.state = pendStep st.state m := by
  cases m with
  | schemaMsg s sch keys =>
    simp only [stepStream] at h
    split at h
    · exact Except.noConfusion h
    · injection h with h2; subst h2; rfl
  | recordMsg s v =>
    simp only [stepStream] at h
    split at h
    · exact Except.noConfusion h
    · split at h
      · exact Except.noConfusion h
      · split at h
        · exact Except.noConfusion h
        · split at h
          · exact Except.noConfusion h
          · split at h
            · exact Except.noConfusion h
            · split at h
              · exact Except.noConfusion h
              · injection h with h2; subst h2; rfl
  | stateMsg v =>
    simp only [stepStream] at h
    injection h with h2; subst h2; rfl
  | invalidMsg => exact Except.noConfusion h

theorem processJob_state_aux (cfg : JobCfg) :
    ∀ (msgs : List Msg) (st0 st : JobState),
      List.foldlM (stepJob cfg) st0 msgs = .ok st →
      st.state = List.foldl pendStep st0.state msgs := by
  intro msgs
  induction msgs with
  | nil =>
    intro st0 st h
    injection h with h2
    subst h2
    rfl
  | cons m rest ih =>
    intro st0 st h
    simp only [List.foldlM, bind, Except.bind] at h
    cases h1 : stepJob cfg st0 m with
    | error e => rw [h1] at h; exact Except.noConfusion h
    | ok s1 =>
      rw [h1] at h
      have : s1.state = pendStep st0.state m := stepJob_state cfg st0 m s1 h1
      simpa [List.foldl, ← this] using ih s1 st h

theorem processStream_state_aux (cfg : StreamCfg) :
    ∀ (msgs : List Msg) (st0 st : StreamState),
      List.foldlM (stepStream cfg) st0 msgs = .ok st →
      st.state = List.foldl pendStep st0.state msgs := by
  intro msgs
  induction msgs with
  | nil =>
    intro st0 st h
    injection h with h2
    subst h2
    rfl
  | cons m rest ih =>
    intro st0 st h
    simp only [List.foldlM, bind, Except.bind] at h
    cases h1 : stepStream cfg st0 m with
    | error e => rw [h1] at h; exact Except.noConfusion h
    | ok s1 =>
      rw [h1] at h
      have : s1.state = pendStep st0.state m := stepStream_state cfg st0 m s1 h1
      simpa [List.foldl, ← this] using ih s1 st h

/-- C2: under both strategies the processor keeps a single-slot pending
checkpoint: after successfully processing any prefix of the event
stream, the slot holds the most recent STATE value when no RECORD event
followed it, and is empty when a RECORD event followed the last STATE
event or no STATE event occurred; every STATE event overwrites the
slot and no queue of earlier checkpoints exists. -/
theorem pending_checkpoint_single_slot :
    (∀ (cfg : JobCfg) (msgs : List Msg) (st : JobState),
        processJob cfg msgs = .ok st → st.state = pendingCheckpoint msgs) ∧
      (∀ (cfg : StreamCfg) (msgs : List Msg) (st : StreamState),
        processStream cfg msgs = .ok st →
          st.state = pendingCheckpoint msgs) :=
  ⟨fun cfg msgs st h => processJob_state_aux cfg msgs initJob st h,
    fun cfg msgs st h => processStream_state_aux cfg msgs initStream st h⟩

theorem pending_checkpoint_single_slot_witness :
    processJob cfgJ
        [.stateMsg "a", .schemaMsg "t" objNode [],
          .recordMsg "t" (.obj [("id", .n 1)]), .stateMsg "b"] =
      .ok ⟨some "b", [("t", objNode)], [("t", [])],
        [("t", [.obj [("id", .n 1)]])], [("t", none)]⟩ ∧
      (JobState.state ⟨some "b", [("t", objNode)], [("t", [])],
          [("t", [.obj [("id", .n 1)]])], [("t", none)]⟩) =
        pendingCheckpoint
          [.stateMsg "a", .schemaMsg "t" objNode [],
            .recordMsg "t" (.obj [("id", .n 1)]), .stateMsg "b"] ∧
      processStream cfgS
          [.stateMsg "a", .schemaMsg "t" objNode [],
            .recordMsg "t" (.obj [("id", .n 1)])] =
        .ok ⟨none, [("t", objNode)], [("t", [])],
          [("t", [.mk "id" (some "integer") "NULLABLE" []])],
          [("t", 1)], [("t", none)]⟩ ∧
      (StreamState.state ⟨none, [("t", objNode)], [("t", [])],
          [("t", [.mk "id" (some "integer") "NULLABLE" []])],
          [("t", 1)], [("t", none)]⟩) =
        pendingCheckpoint
          [.stateMsg "a", .schemaMsg "t" objNode [],
            .recordMsg "t" (.obj [("id", .n 1)])] :=
  ⟨rfl, pending_checkpoint_single_slot.1 cfgJ _ _ rfl, rfl,
    pending_checkpoint_single_slot.2 cfgS _ _ rfl⟩


theorem decorate_inj (pre post a b : String)
    (h : decorate pre post a = decorate pre post b) : a = b := by
  simp only [decorate] at h
  have hd := congrArg String.data h
  simp only [String.data_append] at hd
  exact String.ext (List.append_cancel_left (List.append_cancel_right hd))

theorem dmem_dinsert_iff (x k : String) (v : α) (l : List (String × α)) :
    dmem x (dinsert k v l) = true ↔ (x = k ∨ dmem x l = true) := by
  by_cases hk : dmem k l = true
  · rw [dinsert, if_pos hk]
    have hk2 : ∃ e ∈ l, (e.1 == k) = true := by
      simpa [dmem, List.any_eq_true] using hk
    simp only [dmem, List.any_map, List.any_eq_true, Function.comp]
    constructor
    · rintro ⟨e, he, hpe⟩
      by_cases h1 : (e.1 == k) = true
      · rw [if_pos h1] at hpe
        exact Or.inl (beq_iff_eq.mp hpe).symm
      · rw [if_neg h1] at hpe
        exact Or.inr ⟨e, he, hpe⟩
    · intro hc
      rcases hc with hxk | ⟨e, he, hpe⟩
      · obtain ⟨e, he, hpe⟩ := hk2
        refine ⟨e, he, ?_⟩
        rw [if_pos hpe]
        simp [beq_iff_eq, hxk]
      · refine ⟨e, he, ?_⟩
        by_cases h1 : (e.1 == k) = true
        · rw [if_pos h1]
          have hkx : k = x := (beq_iff_eq.mp h1).symm.trans (beq_iff_eq.mp hpe)
          simp [beq_iff_eq, hkx]
        · rw [if_neg h1]
          exact hpe
  · rw [dinsert, if_neg hk]
    simp only [dmem, List.any_append, List.any_cons, List.any_nil,
      Bool.or_false, Bool.or_eq_true]
    constructor
    · rintro (h | h)
      · exact Or.inr h
      · exact Or.inl (beq_iff_eq.mp h).symm
    · rintro (h | h)
      · exact Or.inr (by simp [beq_iff_eq, h])
      · exact Or.inl h

theorem dmem_dinsert_same (x k : String) (v : α) (l : List (String × α))
    (hk : dmem k l = true) : dmem x (dinsert k v l) = dmem x l := by
  by_cases hx : dmem x l = true
  · rw [hx, (dmem_dinsert_iff x k v l).mpr (Or.inr hx)]
  · cases hxm : dmem x (dinsert k v l) with
    | false => simpa using hx
    | true =>
      rcases (dmem_dinsert_iff x k v l).mp hxm with rfl | hx2
      · rw [hk] at hx; cases hx rfl
      · rw [hx2] at hx; cases hx rfl

/-- Per-table key agreement between the `rows` and `schemas`
dictionaries of the batch loop (they are always populated together). -/
def jobKeysOk (st : JobState) : Prop :=
  ∀ t, dmem t st.rows = dmem t st.schemas

theorem stepJob_schemas_mem (cfg : JobCfg) (st : JobState) (m : Msg)
    (st' : JobState) (hg : jobKeysOk st) (h : stepJob cfg st m = .ok st') :
    jobKeysOk st' ∧
      ∀ s : String,
        dmem (decorate cfg.pre cfg.post s) st'.schemas = true ↔
          (dmem (decorate cfg.pre cfg.post s) st.schemas = true ∨
            ∃ sch k, m = .schemaMsg s sch k) := by
  cases m with
  | schemaMsg s0 sch0 keys0 =>
    simp only [stepJob] at h
    split at h
    next hsk =>
      injection h with h2
      subst h2
      refine ⟨hg, fun s => ?_⟩
      constructor
      · exact Or.inl
      · rintro (hs | ⟨sch, k, hm⟩)
        · exact hs
        · injection hm with hs0 hsch hk
          subst hs0
          rw [← hg]
          exact hsk
    next hsk =>
      injection h with h2
      subst h2
      constructor
      · intro t
        simp only
        by_cases ht : t = decorate cfg.pre cfg.post s0
        · subst ht
          rw [Bool.eq_iff_iff, dmem_dinsert_iff, dmem_dinsert_iff]
          simp
        · rw [Bool.eq_iff_iff, dmem_dinsert_iff, dmem_dinsert_iff]
          simp only [ht, false_or]
          rw [hg]
      · intro s
        simp only
        rw [dmem_dinsert_iff]
        constructor
        · rintro (hde | hs)
          · exact Or.inr ⟨sch0, keys0, by
              rw [decorate_inj cfg.pre cfg.post s s0 hde]⟩
          · exact Or.inl hs
        · rintro (hs | ⟨sch, k, hm⟩)
          · exact Or.inr hs
          · injection hm with hs0 hsch hk
            subst hs0
            exact Or.inl rfl
  | recordMsg s0 v0 =>
    simp only [stepJob] at h
    split at h
    · exact Except.noConfusion h
    next sch hsch =>
      split at h
      · exact Except.noConfusion h
      · split at h
        · exact Except.noConfusion h
        next fv hfv =>
          split at h
          · exact Except.noConfusion h
          next spool hspool =>
            injection h with h2
            subst h2
            have hrmem : dmem (decorate cfg.pre cfg.post s0) st.rows = true := by
              rw [dmem_iff_dlookup]
              exact ⟨spool, hspool⟩
            refine ⟨fun t => ?_, fun s => ?_⟩
            · simpa [dmem_dinsert_same t _ _ _ hrmem] using hg t
            · simp
  | stateMsg v =>
    injection h with h2
    subst h2
    exact ⟨hg, fun s => by simp⟩
  | invalidMsg => exact Except.noConfusion h

theorem processJob_schemas_mem (cfg : JobCfg) :
    ∀ (msgs : List Msg) (st0 st : JobState), jobKeysOk st0 →
      List.foldlM (stepJob cfg) st0 msgs = .ok st →
      jobKeysOk st ∧
        ∀ s : String,
          dmem (decorate cfg.pre cfg.post s) st.schemas = true ↔
            (dmem (decorate cfg.pre cfg.post s) st0.schemas = true ∨
              ∃ sch k, Msg.schemaMsg s sch k ∈ msgs) := by
  intro msgs
  induction msgs with
  | nil =>
    intro st0 st hg h
    injection h with h2
    subst h2
    exact ⟨hg, fun s => by simp⟩
  | cons m rest ih =>
    intro st0 st hg h
    simp only [List.foldlM, bind, Except.bind] at h
    cases h1 : stepJob cfg st0 m with
    | error e => rw [h1] at h; exact Except.noConfusion h
    | ok s1 =>
      rw [h1] at h
      obtain ⟨hg1, hm1⟩ := stepJob_schemas_mem cfg st0 m s1 hg h1
      obtain ⟨hg2, hm2⟩ := ih s1 st hg1 h
      refine ⟨hg2, fun s => ?_⟩
      rw [hm2 s, hm1 s]
      constructor
      · rintro ((hs | ⟨sch, k, hm⟩) | ⟨sch, k, hm⟩)
        · exact Or.inl hs
        · exact Or.inr ⟨sch, k, hm ▸ List.mem_cons_self _ _⟩
        · exact Or.inr ⟨sch, k, List.mem_cons_of_mem _ hm⟩
      · rintro (hs | ⟨sch, k, hm⟩)
        · exact Or.inl (Or.inl hs)
        · rcases List.mem_cons.mp hm with hm | hm
          · exact Or.inl (Or.inr ⟨sch, k, hm.symm⟩)
          · exact Or.inr ⟨sch, k, hm⟩


theorem stepStream_schemas_mem (cfg : StreamCfg) (st : StreamState)
    (m : Msg) (st' : StreamState) (h : stepStream cfg st m = .ok st') :
    ∀ s : String,
      dmem (decorate cfg.pre cfg.post s) st'.schemas = true ↔
        (dmem (decorate cfg.pre cfg.post s) st.schemas = true ∨
          ∃ sch k, m = .schemaMsg s sch k) := by
  cases m with
  | schemaMsg s0 sch0 keys0 =>
    simp only [stepStream] at h
    split at h
    · exact Except.noConfusion h
    · injection h with h2
      subst h2
      intro s
      simp only
      rw [dmem_dinsert_iff]
      constructor
      · rintro (hde | hs)
        · exact Or.inr ⟨sch0, keys0, by
            rw [decorate_inj cfg.pre cfg.post s s0 hde]⟩
        · exact Or.inl hs
      · rintro (hs | ⟨sch, k, hm⟩)
        · exact Or.inr hs
        · injection hm with hs0 hsch hk
          subst hs0
          exact Or.inl rfl
  | recordMsg s0 v0 =>
    simp only [stepStream] at h
    split at h
    · exact Except.noConfusion h
    · split at h
      · exact Except.noConfusion h
      · split at h
        · exact Except.noConfusion h
        · split at h
          · exact Except.noConfusion h
          · split at h
            · exact Except.noConfusion h
            · split at h
              · exact Except.noConfusion h
              · injection h with h2
                subst h2
                intro s
                simp
  | stateMsg v =>
    injection h with h2
    subst h2
    intro s
    simp
  | invalidMsg => exact Except.noConfusion h

theorem processStream_schemas_mem (cfg : StreamCfg) :
    ∀ (msgs : List Msg) (st0 st : StreamState),
      List.foldlM (stepStream cfg) st0 msgs = .ok st →
      ∀ s : String,
        dmem (decorate cfg.pre cfg.post s) st.schemas = true ↔
          (dmem (decorate cfg.pre cfg.post s) st0.schemas = true ∨
            ∃ sch k, Msg.schemaMsg s sch k ∈ msgs) := by
  intro msgs
  induction msgs with
  | nil =>
    intro st0 st h
    injection h with h2
    subst h2
    intro s
    simp
  | cons m rest ih =>
    intro st0 st h
    simp only [List.foldlM, bind, Except.bind] at h
    cases h1 : stepStream cfg st0 m with
    | error e => rw [h1] at h; exact Except.noConfusion h
    | ok s1 =>
      rw [h1] at h
      intro s
      rw [ih s1 st h s, stepStream_schemas_mem cfg st0 m s1 h1 s]
      constructor
      · rintro ((hs | ⟨sch, k, hm⟩) | ⟨sch, k, hm⟩)
        · exact Or.inl hs
        · exact Or.inr ⟨sch, k, hm ▸ List.mem_cons_self _ _⟩
        · exact Or.inr ⟨sch, k, List.mem_cons_of_mem _ hm⟩
      · rintro (hs | ⟨sch, k, hm⟩)
        · exact Or.inl (Or.inl hs)
        · rcases List.mem_cons.mp hm with hm | hm
          · exact Or.inl (Or.inr ⟨sch, k, hm.symm⟩)
          · exact Or.inr ⟨sch, k, hm⟩

theorem stepJob_record_sNF (cfg : JobCfg) (st : JobState) (s : String)
    (v : JValue) :
    stepJob cfg st (.recordMsg s v) = .error .schemaNotFound ↔
      dmem (decorate cfg.pre cfg.post s) st.schemas = false := by
  constructor
  · intro h
    cases hm : dmem (decorate cfg.pre cfg.post s) st.schemas with
    | false => rfl
    | true =>
      exfalso
      obtain ⟨sch, hsch⟩ := (dmem_iff_dlookup _ _).mp hm
      simp only [stepJob, hsch] at h
      split at h
      · simp at h
      · split at h
        · simp at h
        · split at h
          · simp at h
          · simp at h
  · intro h
    have : dlookup (decorate cfg.pre cfg.post s) st.schemas = none := by
      cases hl : dlookup (decorate cfg.pre cfg.post s) st.schemas with
      | none => rfl
      | some sch =>
        rw [(dmem_iff_dlookup _ _).mpr ⟨sch, hl⟩] at h
        cases h
    simp [stepJob, this]


theorem stepStream_record_sNF (cfg : StreamCfg) (st : StreamState)
    (s : String) (v : JValue) :
    stepStream cfg st (.recordMsg s v) = .error .schemaNotFound ↔
      dmem (decorate cfg.pre cfg.post s) st.schemas = false := by
  constructor
  · intro h
    cases hm : dmem (decorate cfg.pre cfg.post s) st.schemas with
    | false => rfl
    | true =>
      exfalso
      obtain ⟨sch, hsch⟩ := (dmem_iff_dlookup _ _).mp hm
      simp only [stepStream, hsch] at h
      split at h
      · simp at h
      · split at h
        · simp at h
        · split at h
          · simp at h
          · split at h
            · simp at h
            · split at h
              · simp at h
              · simp at h
  · intro h
    have : dlookup (decorate cfg.pre cfg.post s) st.schemas = none := by
      cases hl : dlookup (decorate cfg.pre cfg.post s) st.schemas with
      | none => rfl
      | some sch =>
        rw [(dmem_iff_dlookup _ _).mpr ⟨sch, hl⟩] at h
        cases h
    simp [stepStream, this]

/-- C8: under both strategies, a record event for stream `s` processed
after a successfully processed prefix fails with SchemaNotFound exactly
when the prefix contains no schema event for `s`; in particular a
record before any schema event for its stream raises SchemaNotFound and
a record after one never does. -/
theorem record_requires_schema :
    (∀ (cfg : JobCfg) (msgs : List Msg) (st : JobState) (s : String)
        (v : JValue),
      processJob cfg msgs = .ok st →
      (stepJob cfg st (.recordMsg s v) = .error .schemaNotFound ↔
        ¬ ∃ sch k, Msg.schemaMsg s sch k ∈ msgs)) ∧
      (∀ (cfg : StreamCfg) (msgs : List Msg) (st : StreamState)
          (s : String) (v : JValue),
        processStream cfg msgs = .ok st →
        (stepStream cfg st (.recordMsg s v) = .error .schemaNotFound ↔
          ¬ ∃ sch k, Msg.schemaMsg s sch k ∈ msgs)) := by
  constructor
  · intro cfg msgs st s v h
    have hinv := (processJob_schemas_mem cfg msgs initJob st
      (fun t => rfl) h).2 s
    rw [show dmem (decorate cfg.pre cfg.post s) initJob.schemas = false
      from rfl] at hinv
    simp only [Bool.false_eq_true, false_or] at hinv
    rw [stepJob_record_sNF]
    constructor
    · intro hm hex
      rw [hinv.mpr hex] at hm
      cases hm
    · intro hex
      cases hm : dmem (decorate cfg.pre cfg.post s) st.schemas with
      | false => rfl
      | true => exact absurd (hinv.mp hm) hex
  · intro cfg msgs st s v h
    have hinv := processStream_schemas_mem cfg msgs initStream st h s
    rw [show dmem (decorate cfg.pre cfg.post s) initStream.schemas = false
      from rfl] at hinv
    simp only [Bool.false_eq_true, false_or] at hinv
    rw [stepStream_record_sNF]
    constructor
    · intro hm hex
      rw [hinv.mpr hex] at hm
      cases hm
    · intro hex
      cases hm : dmem (decorate cfg.pre cfg.post s) st.schemas with
      | false => rfl
      | true => exact absurd (hinv.mp hm) hex

theorem record_requires_schema_witness :
    processJob cfgJ [.schemaMsg "a" objNode []] =
        .ok ⟨none, [("a", objNode)], [("a", [])], [("a", [])],
          [("a", none)]⟩ ∧
      (stepJob cfgJ
          ⟨none, [("a", objNode)], [("a", [])], [("a", [])], [("a", none)]⟩
          (.recordMsg "b" (.obj [("id", .n 1)])) =
            .error .schemaNotFound ↔
        ¬ ∃ sch k, Msg.schemaMsg "b" sch k ∈
          [Msg.schemaMsg "a" objNode []]) ∧
      processStream cfgS [.schemaMsg "a" objNode []] =
        .ok ⟨none, [("a", objNode)], [("a", [])],
          [("a", [.mk "id" (some "integer") "NULLABLE" []])],
          [("a", 0)], [("a", none)]⟩ ∧
      (stepStream cfgS
          ⟨none, [("a", objNode)], [("a", [])],
            [("a", [.mk "id" (some "integer") "NULLABLE" []])],
            [("a", 0)], [("a", none)]⟩
          (.recordMsg "a" (.obj [("id", .n 1)])) =
            .error .schemaNotFound ↔
        ¬ ∃ sch k, Msg.schemaMsg "a" sch k ∈
          [Msg.schemaMsg "a" objNode []]) :=
  ⟨rfl, record_requires_schema.1 cfgJ [.schemaMsg "a" objNode []] _ "b"
      (.obj [("id", .n 1)]) rfl,
    rfl, record_requires_schema.2 cfgS [.schemaMsg "a" objNode []] _ "a"
      (.obj [("id", .n 1)]) rfl⟩


theorem loadPhase_all_ok (cfg : JobCfg) (loadOk : String → Bool)
    (st : JobState) :
    ∀ tables : List String,
      (∀ t ∈ tables, ∃ sch kp fs, dlookup t st.schemas = some sch ∧
        dlookup t st.keyProps = some kp ∧
        build_schema cfg.fuel sch (some kp) = .ok fs) →
      (∀ t ∈ tables, loadOk t = true) →
      loadPhase cfg loadOk st tables = (tables, .ok [st.state]) := by
  intro tables
  induction tables with
  | nil => intro _ _; rfl
  | cons t rest ih =>
    intro hb hl
    obtain ⟨sch, kp, fs, hsch, hkp, hfs⟩ := hb t (List.mem_cons_self t rest)
    have ih2 := ih (fun u hu => hb u (List.mem_cons_of_mem _ hu))
      (fun u hu => hl u (List.mem_cons_of_mem _ hu))
    simp [loadPhase, hsch, hkp, hfs, hl t (List.mem_cons_self t rest), ih2]

theorem loadPhase_first_fail (cfg : JobCfg) (loadOk : String → Bool)
    (st : JobState) :
    ∀ (pre : List String) (t : String) (post : List String),
      (∀ u ∈ pre ++ [t], ∃ sch kp fs, dlookup u st.schemas = some sch ∧
        dlookup u st.keyProps = some kp ∧
        build_schema cfg.fuel sch (some kp) = .ok fs) →
      (∀ u ∈ pre, loadOk u = true) → loadOk t = false →
      loadPhase cfg loadOk st (pre ++ t :: post) =
        (pre ++ [t], .error (.loadFailed t)) := by
  intro pre
  induction pre with
  | nil =>
    intro t post hb _ ht
    obtain ⟨sch, kp, fs, hsch, hkp, hfs⟩ := hb t (by simp)
    simp [loadPhase, hsch, hkp, hfs, ht]
  | cons u pre ih =>
    intro t post hb hpre ht
    obtain ⟨sch, kp, fs, hsch, hkp, hfs⟩ := hb u (by simp)
    have ih2 := ih t post
      (fun w hw => hb w (List.mem_cons_of_mem _ hw))
      (fun w hw => hpre w (List.mem_cons_of_mem _ hw)) ht
    simp [loadPhase, hsch, hkp, hfs, hpre u (List.mem_cons_self u pre), ih2]

theorem loadPhase_attempted_initial (cfg : JobCfg) (loadOk : String → Bool)
    (st : JobState) :
    ∀ tables : List String,
      ∃ zs, tables = (loadPhase cfg loadOk st tables).1 ++ zs := by
  intro tables
  induction tables with
  | nil => exact ⟨[], rfl⟩
  | cons t rest ih =>
    cases hsch : dlookup t st.schemas with
    | none => refine ⟨t :: rest, ?_⟩; simp [loadPhase, hsch]
    | some sch =>
      cases hkp : dlookup t st.keyProps with
      | none => refine ⟨t :: rest, ?_⟩; simp [loadPhase, hsch, hkp]
      | some kp =>
        cases hfs : build_schema cfg.fuel sch (some kp) with
        | error e => refine ⟨t :: rest, ?_⟩; simp [loadPhase, hsch, hkp, hfs]
        | ok fs =>
          cases hl : loadOk t with
          | false => refine ⟨rest, ?_⟩; simp [loadPhase, hsch, hkp, hfs, hl]
          | true =>
            obtain ⟨zs, hzs⟩ := ih
            refine ⟨zs, ?_⟩
            have hred : loadPhase cfg loadOk st (t :: rest) =
                (t :: (loadPhase cfg loadOk st rest).1,
                  (loadPhase cfg loadOk st rest).2) := by
              simp [loadPhase, hsch, hkp, hfs, hl]
            rw [hred]
            simp only [List.cons_append]
            exact congrArg (List.cons t) hzs

/-- C1: under the batch strategy, after the input stream is exhausted
the pending checkpoint is yielded exactly once (a one-element list) and
only after the load of every registered table completed; when some
table's load fails, the first failure is re-raised, the loads of the
tables after it are never started, no load is run twice, and no
checkpoint is yielded. -/
theorem batch_checkpoint_after_loads (cfg : JobCfg)
    (loadOk : String → Bool) (msgs : List Msg) (st : JobState)
    (h : processJob cfg msgs = .ok st) :
    ((∀ t ∈ st.rows.map Prod.fst, ∃ sch kp fs,
        dlookup t st.schemas = some sch ∧
        dlookup t st.keyProps = some kp ∧
        build_schema cfg.fuel sch (some kp) = .ok fs) →
      ((∀ t ∈ st.rows.map Prod.fst, loadOk t = true) →
        persist_lines_job cfg loadOk msgs =
          (st.rows.map Prod.fst, .ok [st.state])) ∧
      (∀ (pre : List String) (t : String) (post : List String),
        st.rows.map Prod.fst = pre ++ t :: post →
        (∀ u ∈ pre, loadOk u = true) → loadOk t = false →
        persist_lines_job cfg loadOk msgs =
          (pre ++ [t], .error (.loadFailed t)))) ∧
      (∃ zs, st.rows.map Prod.fst =
        (persist_lines_job cfg loadOk msgs).1 ++ zs) ∧
      ((st.rows.map Prod.fst).Nodup →
        (persist_lines_job cfg loadOk msgs).1.Nodup) := by
  have hp : persist_lines_job cfg loadOk msgs =
      loadPhase cfg loadOk st (st.rows.map Prod.fst) := by
    simp [persist_lines_job, h]
  refine ⟨fun hb => ⟨fun hl => ?_, fun pre t post hsplit hpre ht => ?_⟩,
    ?_, ?_⟩
  · rw [hp]
    exact loadPhase_all_ok cfg loadOk st _ hb hl
  · rw [hp, hsplit]
    refine loadPhase_first_fail cfg loadOk st pre t post ?_ hpre ht
    intro u hu
    refine hb u ?_
    rw [hsplit]
    rcases List.mem_append.mp hu with hu | hu
    · exact List.mem_append.mpr (Or.inl hu)
    · simp only [List.mem_singleton] at hu
      subst hu
      exact List.mem_append.mpr (Or.inr (List.mem_cons_self _ _))
  · rw [hp]
    exact loadPhase_attempted_initial cfg loadOk st _
  · intro hnd
    obtain ⟨zs, hzs⟩ := loadPhase_attempted_initial cfg loadOk st
      (st.rows.map Prod.fst)
    rw [hp]
    rw [hzs] at hnd
    exact hnd.of_append_left

theorem batch_checkpoint_after_loads_witness :
    processJob cfgJ [.schemaMsg "t" objNode [], .stateMsg "b"] =
        .ok ⟨some "b", [("t", objNode)], [("t", [])], [("t", [])],
          [("t", none)]⟩ ∧
      persist_lines_job cfgJ (fun _ => true)
          [.schemaMsg "t" objNode [], .stateMsg "b"] =
        (["t"], .ok [some "b"]) ∧
      persist_lines_job cfgJ (fun _ => false)
          [.schemaMsg "t" objNode [], .stateMsg "b"] =
        (["t"], .error (.loadFailed "t")) :=
  ⟨rfl,
    ((batch_checkpoint_after_loads cfgJ (fun _ => true)
        [.schemaMsg "t" objNode [], .stateMsg "b"]
        ⟨some "b", [("t", objNode)], [("t", [])], [("t", [])], [("t", none)]⟩
        rfl).1
      (fun t ht => by
        simp only [List.map, List.mem_singleton] at ht
        subst ht
        exact ⟨objNode, [], [.mk "id" (some "integer") "NULLABLE" []],
          rfl, rfl, rfl⟩)).1
      (fun t _ => rfl),
    ((batch_checkpoint_after_loads cfgJ (fun _ => false)
        [.schemaMsg "t" objNode [], .stateMsg "b"]
        ⟨some "b", [("t", objNode)], [("t", [])], [("t", [])], [("t", none)]⟩
        rfl).1
      (fun t ht => by
        simp only [List.map, List.mem_singleton] at ht
        subst ht
        exact ⟨objNode, [], [.mk "id" (some "integer") "NULLABLE" []],
          rfl, rfl, rfl⟩)).2
      [] "t" [] rfl (fun u hu => absurd hu (List.not_mem_nil u)) rfl⟩

end TargetBigquery
